import Mathlib

/-!
Shallow embedding of the `spider` crawler (Go) for specification checking.

The embedding covers:
* `internal/sourcemap/sourcemap.go` — source-map extraction
  (`ExtractFromResource`, `findSourceMapURL`, `buildSourceMapURL`,
  `downloadSourceMap`, `extractSourceFiles`, `cleanSourcePath`,
  `buildSourceURL`, `guessMimeType`);
* the crawler module (`Resource`, `handleResponse`'s dedup/capture
  protocol, `downloadResource`, `GetResources`);
* `internal/storage/storage.go` (`getFilePath`, `sanitizeFileName`).

Conventions: Go byte strings are modelled as Lean `String` / `List Char`
(the data manipulated by the program is ASCII); Go `[]byte` that may be
`nil` is `Option String`; HTTP effects are oracle parameters
(`String → HTTPOutcome`); Go standard-library string and path functions
(`strings.Contains`, `strings.TrimPrefix`, `strings.ReplaceAll`,
`path/filepath.Clean/Join/Ext/Base/Abs`, the `net/url` parser and
RFC 3986 reference resolution implemented by `net/url`) are re-implemented
here, structurally recursive so that every definition evaluates inside the
kernel.
-/

/-! ## Generic string helpers (models of Go `strings` functions) -/

/-- ASCII lower-casing of one character (model of `strings.ToLower`,
which the program only applies to ASCII extension strings). -/
def lowerChar (c : Char) : Char :=
  if 'A' ≤ c ∧ c ≤ 'Z' then Char.ofNat (c.toNat + 32) else c

/-- ASCII lower-casing of a string. -/
def lowerStr (s : String) : String :=
  String.mk (s.toList.map lowerChar)

/-- Model of `strings.HasPrefix`. -/
def goHasPre (s p : String) : Bool :=
  p.toList.isPrefixOf s.toList

/-- Model of `strings.HasSuffix`. -/
def goHasSuf (s p : String) : Bool :=
  p.toList.reverse.isPrefixOf s.toList.reverse

/-- Model of `strings.TrimPrefix`: drop `p` from the front of `s`
if it is present, otherwise return `s` unchanged. -/
def goTrimPre (s p : String) : String :=
  if goHasPre s p then String.mk (s.toList.drop p.toList.length) else s

/-- Model of `strings.Contains` (case-sensitive substring test):
some tail of `s` starts with `sub`. -/
def goContains (s sub : String) : Bool :=
  (s.toList.tails).any (fun t => sub.toList.isPrefixOf t)

/-- Fuel-driven worker for `strings.ReplaceAll`: replace non-overlapping
occurrences of `pat` left to right, continuing after each replacement.
The fuel (initially the input length) makes the recursion structural;
it never runs out for the non-empty patterns the program uses, since
each step consumes at least one input character. -/
def replAllAux (pat rep : List Char) : Nat → List Char → List Char
  | 0, l => l
  | _ + 1, [] => []
  | fuel + 1, c :: rest =>
    if pat ≠ [] ∧ pat.isPrefixOf (c :: rest) then
      rep ++ replAllAux pat rep fuel ((c :: rest).drop pat.length)
    else
      c :: replAllAux pat rep fuel rest

/-- Model of `strings.ReplaceAll` (for the non-empty patterns used by the
program). -/
def goReplaceAll (s pat rep : String) : String :=
  String.mk (replAllAux pat.toList rep.toList s.toList.length s.toList)

/-- ASCII whitespace recogniser used by the `strings.TrimSpace` model. -/
def isWSChar (c : Char) : Bool :=
  c = ' ' ∨ c = '\t' ∨ c = '\n' ∨ c = '\r'

/-- Model of `strings.TrimSpace` (ASCII whitespace; the trimmed values are
URL fragments, which are ASCII). -/
def goTrimSpace (s : String) : String :=
  String.mk ((((s.toList.dropWhile isWSChar).reverse).dropWhile isWSChar).reverse)

/-- Split a character list at every occurrence of `sep`
(model of `strings.Split` for a one-character separator). -/
def splitOnC (sep : Char) : List Char → List (List Char)
  | [] => [[]]
  | c :: rest =>
    match splitOnC sep rest with
    | [] => if c = sep then [[], []] else [[c]]
    | g :: gs => if c = sep then [] :: g :: gs else (c :: g) :: gs

/-- Join character-list segments with a separator character
(inverse of `splitOnC`). -/
def joinC (sep : Char) : List (List Char) → List Char
  | [] => []
  | [g] => g
  | g :: gs => g ++ sep :: joinC sep gs

/-- First-occurrence split: everything before the first `sep`, and
(if `sep` occurs) everything after it. -/
def splitAtFirst (sep : Char) : List Char → List Char × Option (List Char)
  | [] => ([], none)
  | c :: rest =>
    if c = sep then ([], some rest)
    else
      match splitAtFirst sep rest with
      | (before, after) => (c :: before, after)

/-- Association-list lookup keyed by strings, first match wins
(model of a Go map lookup `m[k]`, whose keys are unique). -/
def goMapLookup {α : Type} : List (String × α) → String → Option α
  | [], _ => none
  | p :: rest, e => if p.1 = e then some p.2 else goMapLookup rest e

/-- Association-list insert-or-overwrite (model of the Go map assignment
`m[k] = v`): if the key is present its entry is replaced in place,
otherwise the pair is appended. -/
def mapInsert {α : Type} : List (String × α) → String → α → List (String × α)
  | [], k, v => [(k, v)]
  | p :: rest, k, v =>
    if p.1 = k then (k, v) :: rest else p :: mapInsert rest k v

/-! ## URL model (the fragment of Go `net/url` the program exercises)

The program uses `url.Parse` and `URL.ResolveReference` / `URL.String`.
The model covers hierarchical URLs `scheme://host/path?query#fragment`
and relative references (no userinfo, no opaque URLs, no percent-escape
processing); every input the theorems touch lies in this fragment. -/

/-- The components of a parsed URL the program reads
(`Scheme`, `Host`, `Path`, `RawQuery`, `Fragment`). -/
structure GoURL where
  scheme : String := ""
  host : String := ""
  path : String := ""
  query : String := ""
  frag : String := ""
deriving Repr, DecidableEq

/-- Scheme scanner (model of `net/url`'s `getScheme`): an initial run of
`alpha (alnum | + | - | .)*` followed by `:` is the scheme; anything else
means the input has no scheme and is all path. -/
def schemeAux (acc : List Char) : List Char → Option (List Char × List Char)
  | [] => none
  | c :: rest =>
    if c.isAlpha then schemeAux (acc ++ [c]) rest
    else if acc ≠ [] ∧ (c.isDigit ∨ c = '+' ∨ c = '-' ∨ c = '.') then
      schemeAux (acc ++ [c]) rest
    else if c = ':' ∧ acc ≠ [] then some (acc, rest)
    else none

/-- Model of `url.Parse` on the hierarchical fragment: split off the
scheme, then the fragment at the first `#`, then the query at the first
`?`; a leading `//` introduces the host, which extends to the next `/`.
Go's parser reports errors on inputs outside this fragment (control
characters, a colon in the first path segment of a scheme-less URL);
those inputs never arise in the theorems, so the model always succeeds
while keeping the caller-side `Option` shape of the Go API. -/
def goURLParse (s : String) : Option GoURL :=
  let l := s.toList
  let (schemeL, rest) :=
    match schemeAux [] l with
    | some (sc, r) => (sc.map lowerChar, r)
    | none => ([], l)
  let (beforeFrag, fragPart) := splitAtFirst '#' rest
  let (beforeQuery, queryPart) := splitAtFirst '?' beforeFrag
  let q := (queryPart.getD []).asString
  let f := (fragPart.getD []).asString
  if ['/', '/'].isPrefixOf beforeQuery then
    let afterSlashes := beforeQuery.drop 2
    some { scheme := schemeL.asString,
           host := (afterSlashes.takeWhile (fun c => c ≠ '/')).asString,
           path := (afterSlashes.dropWhile (fun c => c ≠ '/')).asString,
           query := q, frag := f }
  else
    some { scheme := schemeL.asString, host := "", path := beforeQuery.asString,
           query := q, frag := f }

/-- The chars of `base` up to and including its last `/`
(Go `base[:strings.LastIndex(base, "/")+1]`). -/
def takeUpToLastSlash (l : List Char) : List Char :=
  ((l.reverse.dropWhile (fun c => c ≠ '/'))).reverse

/-- One step of RFC 3986 §5.2.4 remove_dot_segments over path segments:
`.` is dropped, `..` pops the previous segment, anything else is kept. -/
def rdsStep (stack : List (List Char)) (seg : List Char) : List (List Char) :=
  if seg = ['.'] then stack
  else if seg = ['.', '.'] then stack.dropLast
  else stack ++ [seg]

/-- Model of `net/url`'s `resolvePath`: merge the reference path with the
base path (RFC 3986 §5.3.3) and apply remove_dot_segments (§5.2.4).
The result is always rooted; a trailing `.` or `..` segment leaves a
trailing slash, as in Go. -/
def resolvePathL (baseL refL : List Char) : List Char :=
  let full :=
    if refL = [] then baseL
    else if refL.headD ' ' ≠ '/' then takeUpToLastSlash baseL ++ refL
    else refL
  if full = [] then []
  else
    let segs :=
      match splitOnC '/' full with
      | [] :: rest => rest
      | l => l
    let stack := segs.foldl rdsStep []
    let trail : Bool :=
      match segs.getLast? with
      | some s => s = ['.'] ∨ s = ['.', '.']
      | none => false
    '/' :: joinC '/' (stack ++ if trail then [[]] else [])

/-- Model of `URL.ResolveReference` (RFC 3986 §5.3, as implemented by
`net/url`) on the hierarchical fragment: a reference with its own scheme
or host wins outright (its path dot-normalised); an empty reference path
keeps the base path; otherwise the paths are merged. Query and fragment
come from the reference (the base query survives an entirely empty
reference). -/
def resolveReference (base ref : GoURL) : GoURL :=
  let scheme := if ref.scheme = "" then base.scheme else ref.scheme
  if ref.scheme ≠ "" ∨ ref.host ≠ "" then
    { scheme := scheme, host := ref.host,
      path := (resolvePathL ref.path.toList []).asString,
      query := ref.query, frag := ref.frag }
  else if ref.path = "" then
    { scheme := scheme, host := base.host, path := base.path,
      query := if ref.query = "" then base.query else ref.query,
      frag := ref.frag }
  else
    { scheme := scheme, host := base.host,
      path := (resolvePathL base.path.toList ref.path.toList).asString,
      query := ref.query, frag := ref.frag }

/-- Model of `URL.String` for resolved `scheme://host/path` URLs
(empty query and fragment are elided, as in Go). -/
def urlString (u : GoURL) : String :=
  u.scheme ++ "://" ++ u.host ++ u.path ++
    (if u.query ≠ "" then "?" ++ u.query else "") ++
    (if u.frag ≠ "" then "#" ++ u.frag else "")

/-! ## Path model (the fragment of Go `path/filepath` the program uses,
Unix separator) -/

/-- One step of `filepath.Clean`'s element processing: empty and `.`
elements are dropped; `..` pops the previous element unless the stack top
is itself `..`, and at the root of a rooted path a `..` is discarded while
in a relative path it is kept. -/
def cleanStep (rooted : Bool) (stack : List (List Char)) (seg : List Char) : List (List Char) :=
  if seg = [] ∨ seg = ['.'] then stack
  else if seg = ['.', '.'] then
    if stack ≠ [] ∧ stack.getLast? ≠ some ['.', '.'] then stack.dropLast
    else if rooted then stack
    else stack ++ [seg]
  else stack ++ [seg]

/-- Model of `filepath.Clean` (Unix): lexical shortest-equivalent path. -/
def goFilepathClean (s : String) : String :=
  let l := s.toList
  if l = [] then "."
  else
    let rooted := l.headD ' ' = '/'
    let segs := splitOnC '/' l
    let stack := segs.foldl (cleanStep rooted) []
    let body := joinC '/' stack
    if rooted then ('/' :: body).asString
    else if body = [] then "." else body.asString

/-- Model of `filepath.Join`: drop empty parts, join the rest with `/`,
and `Clean` the result; all-empty input yields the empty string. -/
def goFilepathJoin (parts : List String) : String :=
  let ne := parts.filter (fun p => p ≠ "")
  if ne = [] then ""
  else goFilepathClean (String.mk (joinC '/' (ne.map String.toList)))

/-- Worker for `filepath.Ext`: scan the reversed path, collecting
characters until a `.` (found an extension) or a `/` or the start of the
string (no extension). -/
def extScanA (acc : List Char) : List Char → Option (List Char)
  | [] => none
  | c :: rest =>
    if c = '/' then none
    else if c = '.' then some ('.' :: acc)
    else extScanA (c :: acc) rest

/-- Model of `filepath.Ext`: the suffix starting at the final dot in the
final path element; empty if that element has no dot. -/
def goExt (p : String) : String :=
  match extScanA [] p.toList.reverse with
  | some e => e.asString
  | none => ""

/-- Model of `filepath.Base`: the last element of the path after dropping
trailing slashes; `"."` for the empty path, `"/"` for all-slash paths. -/
def goBase (p : String) : String :=
  let l := p.toList
  if l = [] then "."
  else
    let noTrail := (l.reverse.dropWhile (fun c => c = '/')).reverse
    if noTrail = [] then "/"
    else ((noTrail.reverse.takeWhile (fun c => c ≠ '/')).reverse).asString

/-- Model of `filepath.Abs` given an explicit working directory: an
absolute path is just cleaned, a relative one is joined to the working
directory. -/
def goAbs (cwd p : String) : String :=
  if goHasPre p "/" then goFilepathClean p else goFilepathJoin [cwd, p]

/-! ## Data model (`crawler.Resource`) and the HTTP oracle -/

/-- `crawler.Resource` — the unit of capture. `Content` is `Option` so a
`nil` Go byte slice (`none`) is distinguished from present content; the
wall-clock `ResponseTime` field is not modelled. -/
structure Resource where
  URL : String
  Method : String := ""
  StatusCode : Int := 0
  MimeType : String := ""
  Content : Option String := none
  Headers : List (String × String) := []
deriving Repr, DecidableEq

instance {ε α : Type} [DecidableEq ε] [DecidableEq α] : DecidableEq (Except ε α) := fun a b =>
  match a, b with
  | .ok x, .ok y =>
    if h : x = y then .isTrue (by rw [h]) else .isFalse (by intro hc; cases hc; exact h rfl)
  | .error x, .error y =>
    if h : x = y then .isTrue (by rw [h]) else .isFalse (by intro hc; cases hc; exact h rfl)
  | .ok _, .error _ => .isFalse (by intro hc; cases hc)
  | .error _, .ok _ => .isFalse (by intro hc; cases hc)

/-- Outcome of one HTTP GET as seen by the program: a transport error
(`client.Get` returned an error), or a response carrying a status code
and a body-read outcome (`io.ReadAll` may itself fail). -/
inductive HTTPOutcome where
  | transportErr (msg : String)
  | response (status : Nat) (body : Except String String)
deriving Repr, DecidableEq

/-! ## Source map extractor (`internal/sourcemap/sourcemap.go`) -/

/-- `sourcemap.SourceMap` — the parsed form of a `.map` file. -/
structure SourceMap where
  version : Int := 0
  sources : List String := []
  sourcesContent : List String := []
  names : List String := []
  mappings : String := ""
  file : String := ""
  sourceRoot : String := ""
deriving Repr, DecidableEq

/-- Line-form scan for the regex `//# sourceMappingURL=(.+)`: leftmost
occurrence of the literal marker whose rest-of-line capture is non-empty;
the capture runs to the end of the line (greedy `.+`, which excludes the
newline). -/
def scanLineForm (marker : List Char) : List Char → Option (List Char)
  | [] => none
  | c :: rest =>
    if marker.isPrefixOf (c :: rest) then
      let v := ((c :: rest).drop marker.length).takeWhile (fun x => x ≠ '\n')
      if v ≠ [] then some v else scanLineForm marker rest
    else scanLineForm marker rest

/-- For the block-form regex `/\*# sourceMappingURL=(.+)\*/`: the greedy
`.+` capture is the longest non-empty same-line chunk that is immediately
followed by `*/`. -/
def blockCapture (line : List Char) : Option (List Char) :=
  let ok := fun n => decide (1 ≤ n) && ['*', '/'].isPrefixOf (line.drop n)
  match ((List.range (line.length + 1)).filter ok).getLast? with
  | some n => some (line.take n)
  | none => none

/-- Block-form scan for `/\*# sourceMappingURL=(.+)\*/`: leftmost marker
occurrence at which the capture succeeds. -/
def scanBlockForm (marker : List Char) : List Char → Option (List Char)
  | [] => none
  | c :: rest =>
    if marker.isPrefixOf (c :: rest) then
      let line := ((c :: rest).drop marker.length).takeWhile (fun x => x ≠ '\n')
      match blockCapture line with
      | some v => some v
      | none => scanBlockForm marker rest
    else scanBlockForm marker rest

/-- `findSourceMapURL`: try the line-comment pattern, then the
block-comment pattern; the captured value is whitespace-trimmed; `""`
means no reference found. -/
def findSourceMapURL (content : String) : String :=
  match scanLineForm "//# sourceMappingURL=".toList content.toList with
  | some v => goTrimSpace v.asString
  | none =>
    match scanBlockForm "/*# sourceMappingURL=".toList content.toList with
    | some v => goTrimSpace v.asString
    | none => ""

/-- `buildSourceMapURL`: a value starting with `http://` or `https://` is
the map URL verbatim; otherwise parse the base and the reference and
resolve the reference against the base. -/
def buildSourceMapURL (baseURL sourceMapURL : String) : Except String String :=
  if goHasPre sourceMapURL "http://" ∨ goHasPre sourceMapURL "https://" then
    .ok sourceMapURL
  else
    match goURLParse baseURL with
    | none => .error "parse base"
    | some base =>
      match goURLParse sourceMapURL with
      | none => .error "parse relative"
      | some rel => .ok (urlString (resolveReference base rel))

/-- `downloadSourceMap`: GET the map URL; a transport error, a non-200
status, or a body-read error is an error; otherwise the body. -/
def downloadSourceMap (g : String → HTTPOutcome) (url : String) : Except String String :=
  match g url with
  | .transportErr m => .error m
  | .response st body =>
    if st ≠ 200 then .error ("HTTP " ++ toString st)
    else
      match body with
      | .error m => .error m
      | .ok b => .ok b

/-- `cleanSourcePath`: strip a leading `webpack://`, then a leading
`webpack:///`, then a leading `./`; a non-empty `sourceRoot` is stripped
of `webpack://` and a leading `/` and joined in front as a directory. -/
def cleanSourcePath (sourcePath sourceRoot : String) : String :=
  let c1 := goTrimPre sourcePath "webpack://"
  let c2 := goTrimPre c1 "webpack:///"
  let c3 := goTrimPre c2 "./"
  if sourceRoot ≠ "" then
    let r1 := goTrimPre sourceRoot "webpack://"
    let r2 := goTrimPre r1 "/"
    goFilepathJoin [r2, c3]
  else c3

/-- `buildSourceURL`: `fmt.Sprintf("%s://%s/%s", scheme, host, path)`
over the parsed map URL. -/
def buildSourceURL (u : GoURL) (sourcePath : String) : String :=
  u.scheme ++ "://" ++ u.host ++ "/" ++ sourcePath

/-- The extension → MIME table literal from `guessMimeType`. -/
def mimeTypesList : List (String × String) :=
  [(".js", "application/javascript"),
   (".jsx", "application/javascript"),
   (".ts", "application/typescript"),
   (".tsx", "application/typescript"),
   (".css", "text/css"),
   (".scss", "text/x-scss"),
   (".sass", "text/x-sass"),
   (".less", "text/x-less"),
   (".json", "application/json"),
   (".html", "text/html"),
   (".vue", "text/x-vue")]

/-- `guessMimeType`: look the lower-cased `filepath.Ext` of the path up in
the table, defaulting to `text/plain`. -/
def guessMimeType (path : String) : String :=
  (goMapLookup mimeTypesList (lowerStr (goExt path))).getD "text/plain"

/-- The materialization loop of `extractSourceFiles`: walk `Sources` with
its index; an entry is skipped when the index is beyond `SourcesContent`
or the aligned content is empty, and otherwise becomes a `Resource` with
the cleaned path rehomed under the map URL's scheme and host, status 200,
the content bytes, and the `X-Source: SourceMap` marker header. -/
def extractLoop (u : GoURL) (sm : SourceMap) : Nat → List String → List Resource
  | _, [] => []
  | i, src :: rest =>
    if sm.sourcesContent.length ≤ i ∨ sm.sourcesContent.getD i "" = "" then
      extractLoop u sm (i + 1) rest
    else
      let cleanPath := cleanSourcePath src sm.sourceRoot
      { URL := buildSourceURL u cleanPath,
        StatusCode := 200,
        MimeType := guessMimeType cleanPath,
        Content := some (sm.sourcesContent.getD i ""),
        Headers := [("X-Source", "SourceMap")] } :: extractLoop u sm (i + 1) rest

/-- `extractSourceFiles`: parse the map URL (an unparsable URL yields no
resources) and run the materialization loop over `Sources`. -/
def extractSourceFiles (sm : SourceMap) (sourceMapURL : String) : List Resource :=
  match goURLParse sourceMapURL with
  | none => []
  | some u => extractLoop u sm 0 sm.sources

/-- `ExtractFromResource`: the whole per-resource pipeline. The HTTP GET
is the oracle `g`; JSON decoding (`json.Unmarshal` inside
`parseSourceMap`) is the oracle `pj`, `none` being a decode error.
Ineligible MIME type, missing reference, download failure and parse
failure all return `.ok []` (Go `nil, nil`); only a URL-building failure
is an error. -/
def ExtractFromResource (g : String → HTTPOutcome) (pj : String → Option SourceMap)
    (res : Resource) : Except String (List Resource) :=
  if ¬ goContains res.MimeType "javascript" ∧ ¬ goContains res.MimeType "css" then
    .ok []
  else
    let sourceMapURL := findSourceMapURL (res.Content.getD "")
    if sourceMapURL = "" then .ok []
    else
      match buildSourceMapURL res.URL sourceMapURL with
      | .error e => .error ("failed to build source map URL: " ++ e)
      | .ok fullURL =>
        match downloadSourceMap g fullURL with
        | .error _ => .ok []
        | .ok content =>
          match pj content with
          | none => .ok []
          | some sm => .ok (extractSourceFiles sm fullURL)

/-! ## Capture pipeline (`handleResponse`, `downloadResource`,
`GetResources`)

`handleResponse` runs once per response-received event. Its observable
shape is three atomic regions: (1) under the mutex, check whether the URL
is already in `s.resources` and stop if so; (2) off the mutex, retrieve
the body (the spawned goroutine's `GetResponseBody`, with
`downloadResource` as fallback); (3) under the mutex, assign
`s.resources[url]`. The interleaving model below has exactly these three
atomic steps per event. -/

/-- One response-received event: the URL (the request identifier plays no
role in the dedup logic being verified). -/
structure CapTask where
  url : String
  rid : Nat := 0
deriving Repr, DecidableEq

/-- Program counter of one `handleResponse` invocation: about to run the
existence check, about to retrieve the body, about to store, or finished. -/
inductive CapPhase where
  | check
  | fetch
  | store
  | finished
deriving Repr, DecidableEq

/-- Shared state: the spider's URL-keyed resource map (values are the
event indices that wrote them), each event's program counter, and the log
of body-retrieval attempts (event indices in order). -/
structure CapState where
  store : List (String × Nat) := []
  phases : List CapPhase := []
  fetchLog : List Nat := []
deriving Repr, DecidableEq

/-- Run one atomic step of event `i` (mutex-protected check, body
retrieval, or mutex-protected map assignment), per `handleResponse`. -/
def capStep (tasks : List CapTask) (s : CapState) (i : Nat) : CapState :=
  match s.phases.get? i, tasks.get? i with
  | some ph, some t =>
    match ph with
    | .check =>
      if (goMapLookup s.store t.url).isSome then
        { s with phases := s.phases.set i .finished }
      else
        { s with phases := s.phases.set i .fetch }
    | .fetch =>
      { s with phases := s.phases.set i .store, fetchLog := s.fetchLog ++ [i] }
    | .store =>
      { s with phases := s.phases.set i .finished, store := mapInsert s.store t.url i }
    | .finished => s
  | _, _ => s

/-- Initial state: empty map, every event at its existence check. -/
def capInit (tasks : List CapTask) : CapState :=
  { store := [], phases := tasks.map (fun _ => CapPhase.check), fetchLog := [] }

/-- Execute a schedule (a sequence of event indices, each performing its
next atomic step). -/
def capRun (tasks : List CapTask) (sched : List Nat) : CapState :=
  sched.foldl (capStep tasks) (capInit tasks)

/-- `downloadResource` — the fallback fetcher: `nil` on a transport error
or a body-read error, and otherwise the body, with the status code never
inspected. -/
def downloadResource (g : String → HTTPOutcome) (url : String) : Option String :=
  match g url with
  | .transportErr _ => none
  | .response _ body =>
    match body with
    | .error _ => none
    | .ok b => some b

/-- The tail of `handleResponse`'s body goroutine: on a body-retrieval
failure the fallback fetcher's result (possibly `none`) becomes the
content; either way the resource is assigned into the store. Returns the
updated store and the stored resource. -/
def capFinish (g : String → HTTPOutcome) (store : List (String × Resource))
    (res : Resource) (bodyResult : Except String String) :
    List (String × Resource) × Resource :=
  let body : Option String :=
    match bodyResult with
    | .ok b => some b
    | .error _ => downloadResource g res.URL
  let res2 := { res with Content := body }
  (mapInsert store res.URL res2, res2)

/-! ## Snapshot (`GetResources`)

Go maps are reference values, so whether `GetResources` hands back the
live map or a copy is observable. The heap model makes that explicit: a
heap of maps addressed by index, with the spider owning one address.
`GetResources` allocates a fresh address holding a copy
(`make` + `maps.Copy`); later writes go through the spider's address. -/

/-- A heap of URL-keyed resource maps plus the address of the spider's
own `s.resources` map. -/
structure SpiderSt where
  heap : List (List (String × Resource)) := []
  addr : Nat := 0

/-- Read the map at a heap address. -/
def readHeap (s : SpiderSt) (a : Nat) : List (String × Resource) :=
  s.heap.getD a []

/-- `make(map[string]*Resource, n)` followed by `maps.Copy(result, src)`:
insert every entry of the source into a fresh map. -/
def copyMap (src : List (String × Resource)) : List (String × Resource) :=
  src.foldl (fun acc p => mapInsert acc p.1 p.2) []

/-- `GetResources`: allocate a fresh map holding a copy of the spider's
map and return its address with the new state. -/
def getResources (s : SpiderSt) : Nat × SpiderSt :=
  (s.heap.length, { s with heap := s.heap ++ [copyMap (readHeap s s.addr)] })

/-- A later `s.resources[url] = resource` (the write in `handleResponse`):
mutate the map at the spider's address. -/
def spiderPut (s : SpiderSt) (url : String) (r : Resource) : SpiderSt :=
  { s with heap := s.heap.set s.addr (mapInsert (readHeap s s.addr) url r) }

/-! ## Storage (`internal/storage/storage.go`) -/

/-- `sanitizeFileName`: replace the characters
`/ \ : * ? " < > | & =` by `_` (the `strings.NewReplacer` patterns are
all single characters, so the single pass is a character map). -/
def sanitizeFileName (name : String) : String :=
  String.mk (name.toList.map (fun c =>
    if c ∈ ['/', '\\', ':', '*', '?', '"', '<', '>', '|', '&', '='] then '_' else c))

/-- `getFilePath`, taking the process working directory (for
`filepath.Abs`) and the already-parsed URL components (`url.Parse` is the
collaborator; `host0`, `path0`, `rawQuery` are `parsedURL.Host`,
`parsedURL.Path`, `parsedURL.RawQuery`). -/
def getFilePath (cwd baseDir host0 path0 rawQuery : String) : String :=
  let host1 := if host0 = "" then "unknown" else host0
  let host := goReplaceAll host1 ":" "_"
  let path1 := if path0 = "" ∨ path0 = "/" then "/index.html" else path0
  let path2 := goFilepathClean path1
  let path3 := goReplaceAll path2 ".." ""
  let path4 := goTrimPre path3 "/"
  let path5 :=
    if rawQuery ≠ "" then
      let q1 := sanitizeFileName rawQuery
      let q := if 50 < q1.toList.length then String.mk (q1.toList.take 50) else q1
      path4 ++ "_" ++ q
    else path4
  let path6 := if path5 = "" ∨ goHasSuf path5 "/" then path5 ++ "index.html" else path5
  let full1 := goFilepathJoin [baseDir, host, path6]
  let absBase := goAbs cwd baseDir
  let absPath := goAbs cwd full1
  let full2 :=
    if ¬ goHasPre absPath absBase then goFilepathJoin [baseDir, host, goBase path6]
    else full1
  if goExt full2 = "" then full2 ++ ".html" else full2

/-! ## Spec-side definitions (for refinement comparison)

These two definitions follow the wording of the specification rather than
the code, so that code-vs-spec claims can be stated as equalities. -/

/-- Modelled from the spec, §6: the extension → MIME table as written —
a case-sensitive table over the listed extensions with every unlisted
extension yielding `text/plain`. -/
def specMimeFor (e : String) : String :=
  if e = ".js" ∨ e = ".jsx" then "application/javascript"
  else if e = ".ts" ∨ e = ".tsx" then "application/typescript"
  else if e = ".css" then "text/css"
  else if e = ".scss" then "text/x-scss"
  else if e = ".sass" then "text/x-sass"
  else if e = ".less" then "text/x-less"
  else if e = ".json" then "application/json"
  else if e = ".html" then "text/html"
  else if e = ".vue" then "text/x-vue"
  else "text/plain"

/-- Modelled from the spec, §4.4 step 6: entry `i` of `Sources` is
materialized iff `i < len(SourcesContent)` and `SourcesContent[i]` is
non-empty; the resource's URL is `<scheme>://<host>/<cleaned-path>` under
the map URL's scheme and host, its status is 200, its content is
`SourcesContent[i]`, it carries the source-map marker header, and the
output order follows `Sources`. -/
def specMaterialize (sm : SourceMap) (u : GoURL) : List Resource :=
  (List.range sm.sources.length).filterMap (fun i =>
    if i < sm.sourcesContent.length ∧ sm.sourcesContent.getD i "" ≠ "" then
      some { URL := u.scheme ++ "://" ++ u.host ++ "/" ++
               cleanSourcePath (sm.sources.getD i "") sm.sourceRoot,
             StatusCode := 200,
             MimeType := guessMimeType (cleanSourcePath (sm.sources.getD i "") sm.sourceRoot),
             Content := some (sm.sourcesContent.getD i ""),
             Headers := [("X-Source", "SourceMap")] }
    else none)

/-! ## Helper lemmas -/

theorem goMapLookup_mapInsert_self {α : Type} :
    ∀ (m : List (String × α)) (k : String) (v : α),
    goMapLookup (mapInsert m k v) k = some v := by
  intro m
  induction m with
  | nil => intro k v; simp [mapInsert, goMapLookup]
  | cons hd tl ih =>
    intro k v
    by_cases hk : hd.1 = k
    · simp [mapInsert, hk, goMapLookup]
    · simp only [mapInsert, if_neg hk, goMapLookup]
      exact ih k v

theorem mem_keys_mapInsert {α : Type} :
    ∀ (m : List (String × α)) (k : String) (v : α) (a : String),
    a ∈ (mapInsert m k v).map Prod.fst → a ∈ m.map Prod.fst ∨ a = k := by
  intro m
  induction m with
  | nil => intro k v a h; simp [mapInsert] at h; exact Or.inr h
  | cons hd tl ih =>
    intro k v a h
    by_cases hk : hd.1 = k
    · simp only [mapInsert, if_pos hk, List.map_cons, List.mem_cons] at h
      rcases h with h | h
      · exact Or.inr h
      · exact Or.inl (by rw [List.map_cons]; exact List.mem_cons_of_mem _ h)
    · simp only [mapInsert, if_neg hk, List.map_cons, List.mem_cons] at h
      rcases h with h | h
      · exact Or.inl (by rw [List.map_cons, h]; exact List.mem_cons_self _ _)
      · rcases ih k v a h with h2 | h2
        · exact Or.inl (by rw [List.map_cons]; exact List.mem_cons_of_mem _ h2)
        · exact Or.inr h2

theorem mapInsert_keys_nodup {α : Type} :
    ∀ (m : List (String × α)) (k : String) (v : α),
    (m.map Prod.fst).Nodup → ((mapInsert m k v).map Prod.fst).Nodup := by
  intro m
  induction m with
  | nil => intro k v _; simp [mapInsert]
  | cons hd tl ih =>
    intro k v h
    rw [List.map_cons, List.nodup_cons] at h
    by_cases hk : hd.1 = k
    · simp only [mapInsert, if_pos hk, List.map_cons, List.nodup_cons]
      exact ⟨by rw [← hk]; exact h.1, h.2⟩
    · simp only [mapInsert, if_neg hk, List.map_cons, List.nodup_cons]
      refine ⟨?_, ih k v h.2⟩
      intro hc
      rcases mem_keys_mapInsert tl k v hd.1 hc with h2 | h2
      · exact h.1 h2
      · exact hk h2

theorem listGet?SetNe {α : Type} : ∀ (l : List α) (i j : Nat) (a : α), i ≠ j →
    (l.set i a).get? j = l.get? j := by
  intro l
  induction l with
  | nil => intro i j a _; simp
  | cons hd tl ih =>
    intro i j a hij
    cases i with
    | zero =>
      cases j with
      | zero => exact absurd rfl hij
      | succ j' => simp [List.set]
    | succ i' =>
      cases j with
      | zero => simp [List.set]
      | succ j' =>
        simp only [List.set, List.get?]
        exact ih i' j' a (fun hc => hij (by rw [hc]))

theorem listGet?SetSelf {α : Type} : ∀ (l : List α) (i : Nat) (a : α), i < l.length →
    (l.set i a).get? i = some a := by
  intro l
  induction l with
  | nil => intro i a h; simp at h
  | cons hd tl ih =>
    intro i a h
    cases i with
    | zero => simp [List.set]
    | succ i' =>
      simp only [List.set, List.get?]
      exact ih i' a (by simpa using h)

theorem listGetDSetNe {α : Type} (l : List α) (i j : Nat) (a d : α) (hij : i ≠ j) :
    (l.set i a).getD j d = l.getD j d := by
  rw [List.getD_eq_getD_get?, List.getD_eq_getD_get?, listGet?SetNe l i j a hij]

theorem listGetDAppendLen {α : Type} : ∀ (l : List α) (x d : α),
    (l ++ [x]).getD l.length d = x := by
  intro l
  induction l with
  | nil => intro x d; rfl
  | cons hd tl ih =>
    intro x d
    simp only [List.cons_append, List.length_cons, List.getD_cons_succ]
    exact ih x d

/-! ## Claim theorems -/

/-- C2: the claim's own example refutes it — `cleanSourcePath` strips
`webpack://` before trying `webpack:///` (which can then never match),
so `webpack:///./src/App.js` with empty `sourceRoot` cleans to
`/./src/App.js`, not `src/App.js`, and with map URL
`https://example.com/static/app.js.map` the synthesized resource URL is
`https://example.com//./src/App.js`, not `https://example.com/src/App.js`.
The dead second `TrimPrefix` shows the intended behavior; the code is the
slip. -/
theorem cleanSourcePath_webpack_triple_slash_bug :
    cleanSourcePath "webpack:///./src/App.js" "" = "/./src/App.js" ∧
    (extractSourceFiles
      { sources := ["webpack:///./src/App.js"], sourcesContent := ["console.log(1);"] }
      "https://example.com/static/app.js.map").map (fun r => r.URL)
      = ["https://example.com//./src/App.js"] ∧
    ("https://example.com//./src/App.js" : String) ≠ "https://example.com/src/App.js" := by
  refine ⟨by decide, by decide, by decide⟩

/-- C10: `getFilePath` does not keep every accepted URL inside the base
directory: the host component is never checked for `..`, and the escape
fallback re-joins with that same host. For the URL `http://../passwd`
(parsed host `..`, path `/passwd`) with base directory `/base`, the
returned file path is `/passwd.html`, outside `/base` — contradicting the
code's own "ensure the path is inside baseDir" safety-check comment. A
well-formed host stays inside, and `..` in the URL path is removed. -/
theorem getFilePath_dotdot_host_escape :
    getFilePath "/w" "/base" ".." "/passwd" "" = "/passwd.html" ∧
    goHasPre (getFilePath "/w" "/base" ".." "/passwd" "") "/base" = false ∧
    getFilePath "/w" "/base" "example.com" "/a/../c.js" "" = "/base/example.com/c.js" := by
  refine ⟨by decide, by decide, by decide⟩

/-- C1 (counterexample): two concurrently delivered events for the same
URL, interleaved check-check-fetch-fetch-store-store, both pass the
existence check (which is a separate mutex region from the store) and
both perform a body-retrieval attempt — refuting "at most one event per
URL wins the reservation" / "exactly one body-retrieval attempt". The
final store still holds a single entry for the URL. -/
theorem handleResponse_race_two_fetches :
    (capRun [{ url := "https://example.com/app.js" }, { url := "https://example.com/app.js" }]
      [0, 1, 0, 1, 0, 1]).fetchLog = [0, 1] ∧
    (capRun [{ url := "https://example.com/app.js" }, { url := "https://example.com/app.js" }]
      [0, 1, 0, 1, 0, 1]).store.map Prod.fst = ["https://example.com/app.js"] := by
  refine ⟨by decide, by decide⟩

/-- C4: a resource whose MIME type contains neither "javascript" nor
"css" (case-sensitive substring test) makes `ExtractFromResource` return
an empty result with no error, for every HTTP oracle and every JSON
oracle — in particular no network request is a function of the outcome. -/
theorem extractFromResource_ineligible_empty
    (g : String → HTTPOutcome) (pj : String → Option SourceMap) (res : Resource)
    (h1 : goContains res.MimeType "javascript" = false)
    (h2 : goContains res.MimeType "css" = false) :
    ExtractFromResource g pj res = .ok [] := by
  unfold ExtractFromResource
  rw [if_pos]
  exact ⟨by simp [h1], by simp [h2]⟩

/-- C4 (witness): a `image/png` resource yields an empty extraction
result under a concrete oracle. -/
theorem extractFromResource_ineligible_witness :
    ExtractFromResource (fun _ => .transportErr "boom") (fun _ => none)
      { URL := "https://example.com/logo.png", MimeType := "image/png",
        Content := some "//# sourceMappingURL=x.map" } = .ok [] :=
  extractFromResource_ineligible_empty _ _ _ (by decide) (by decide)

/-- C5: a detected `sourceMappingURL` value starting with `http://` or
`https://` is the absolute map URL verbatim (for every base URL);
otherwise the value is resolved against the resource's URL by RFC 3986 §5
base+relative resolution (the `net/url` `ResolveReference` model): the
spec's example `https://example.com/static/app.js` + `app.js.map` gives
`https://example.com/static/app.js.map`, `..` segments ascend, and a
leading `/` replaces the whole path. -/
theorem buildSourceMapURL_resolution :
    (∀ base v : String,
      (goHasPre v "http://" = true ∨ goHasPre v "https://" = true) →
      buildSourceMapURL base v = .ok v) ∧
    buildSourceMapURL "https://example.com/static/app.js" "app.js.map"
      = .ok "https://example.com/static/app.js.map" ∧
    buildSourceMapURL "https://example.com/a/b/c.js" "../maps/c.js.map"
      = .ok "https://example.com/a/maps/c.js.map" ∧
    buildSourceMapURL "https://example.com/a/b/c.js" "/root.map"
      = .ok "https://example.com/root.map" := by
  refine ⟨?_, by decide, by decide, by decide⟩
  intro base v h
  rcases h with h | h <;> simp [buildSourceMapURL, h]

/-- C5 (witness): absolute-reference passthrough at a concrete input,
independent of the resource's own URL. -/
theorem buildSourceMapURL_resolution_witness :
    buildSourceMapURL "https://other.example.org/deep/page.js"
      "https://cdn.example.com/app.js.map" = .ok "https://cdn.example.com/app.js.map" :=
  buildSourceMapURL_resolution.1 _ _ (Or.inr (by decide))

/-- C6: whenever the resolved map URL's download fails (transport error
or non-200 status — including a body-read error) or the downloaded bytes
fail to decode as the source-map schema, `ExtractFromResource` returns an
empty result with no error. The function is total (no panic), and it acts
on one resource at a time, so other resources in a batch are unaffected. -/
theorem extractFromResource_recoverable_failures
    (g : String → HTTPOutcome) (pj : String → Option SourceMap) (res : Resource)
    (v full : String)
    (hf : findSourceMapURL (res.Content.getD "") = v)
    (hv : v ≠ "")
    (hb : buildSourceMapURL res.URL v = .ok full)
    (hfail : (∃ e, downloadSourceMap g full = .error e) ∨
             (∃ b, downloadSourceMap g full = .ok b ∧ pj b = none)) :
    ExtractFromResource g pj res = .ok [] := by
  simp only [ExtractFromResource, hf]
  by_cases helig : ¬ goContains res.MimeType "javascript" ∧ ¬ goContains res.MimeType "css"
  · rw [if_pos helig]
  · rw [if_neg helig, if_neg hv, hb]
    rcases hfail with ⟨e, he⟩ | ⟨b, hbk, hpj⟩
    · simp [he]
    · simp [hbk, hpj]

/-- C6 (witness): a JavaScript resource whose map URL answers 404 yields
an empty result and no error under a concrete oracle. -/
theorem extractFromResource_recoverable_failures_witness :
    ExtractFromResource (fun _ => .response 404 (.ok "not json")) (fun _ => none)
      { URL := "https://example.com/static/app.js",
        MimeType := "application/javascript",
        Content := some "//# sourceMappingURL=app.js.map" } = .ok [] :=
  extractFromResource_recoverable_failures _ _ _ "app.js.map"
    "https://example.com/static/app.js.map"
    (by decide) (by decide) (by decide)
    (Or.inl ⟨"HTTP 404", by decide⟩)

theorem mimeLookup_eq_specMimeFor : ∀ e : String,
    (goMapLookup mimeTypesList e).getD "text/plain" = specMimeFor e := by
  intro e
  by_cases h1 : e = ".js"
  · subst h1; decide
  by_cases h2 : e = ".jsx"
  · subst h2; decide
  by_cases h3 : e = ".ts"
  · subst h3; decide
  by_cases h4 : e = ".tsx"
  · subst h4; decide
  by_cases h5 : e = ".css"
  · subst h5; decide
  by_cases h6 : e = ".scss"
  · subst h6; decide
  by_cases h7 : e = ".sass"
  · subst h7; decide
  by_cases h8 : e = ".less"
  · subst h8; decide
  by_cases h9 : e = ".json"
  · subst h9; decide
  by_cases h10 : e = ".html"
  · subst h10; decide
  by_cases h11 : e = ".vue"
  · subst h11; decide
  simp only [mimeTypesList, goMapLookup]
  rw [if_neg (fun h => h1 h.symm), if_neg (fun h => h2 h.symm), if_neg (fun h => h3 h.symm),
    if_neg (fun h => h4 h.symm), if_neg (fun h => h5 h.symm), if_neg (fun h => h6 h.symm),
    if_neg (fun h => h7 h.symm), if_neg (fun h => h8 h.symm), if_neg (fun h => h9 h.symm),
    if_neg (fun h => h10 h.symm), if_neg (fun h => h11 h.symm)]
  simp [specMimeFor, h1, h2, h3, h4, h5, h6, h7, h8, h9, h10, h11]

/-- C7 (counterexample): the path `app.JS` has extension `.JS`, which is
not an entry of the §6 table, so the claim assigns it `text/plain`; the
code lower-cases the extension before the lookup and assigns
`application/javascript`. -/
theorem guessMimeType_uppercase_counterexample :
    guessMimeType "app.JS" = "application/javascript" ∧
    specMimeFor (goExt "app.JS") = "text/plain" ∧
    guessMimeType "app.JS" ≠ specMimeFor (goExt "app.JS") := by
  refine ⟨by decide, by decide, by decide⟩

/-- C7 (amended): the assigned MIME type is exactly the §6 table entry
for the lower-cased extension of the path — so each listed extension maps
as tabulated, any extension unknown after lower-casing (e.g. `.map`)
yields `text/plain`, and upper-case variants of listed extensions map
like their lower-case forms. -/
theorem guessMimeType_lowercased_table :
    (∀ p : String, guessMimeType p = specMimeFor (lowerStr (goExt p))) ∧
    guessMimeType "a.js" = "application/javascript" ∧
    guessMimeType "a.jsx" = "application/javascript" ∧
    guessMimeType "a.ts" = "application/typescript" ∧
    guessMimeType "a.tsx" = "application/typescript" ∧
    guessMimeType "a.css" = "text/css" ∧
    guessMimeType "a.scss" = "text/x-scss" ∧
    guessMimeType "a.sass" = "text/x-sass" ∧
    guessMimeType "a.less" = "text/x-less" ∧
    guessMimeType "a.json" = "application/json" ∧
    guessMimeType "a.html" = "text/html" ∧
    guessMimeType "a.vue" = "text/x-vue" ∧
    guessMimeType "a.map" = "text/plain" := by
  refine ⟨fun p => mimeLookup_eq_specMimeFor _, by decide, by decide, by decide, by decide,
    by decide, by decide, by decide, by decide, by decide, by decide, by decide, by decide⟩

/-- C8: the fallback fetcher `downloadResource` returns `none` exactly
when the transport fails (the GET itself errors, or reading the body
errors) and otherwise returns the body for any status code; and when the
browser-side body retrieval fails, `handleResponse`'s goroutine stores
the resource with the fallback's result (possibly `none`) as its content,
so a body-retrieval failure never prevents the resource from being
stored. -/
theorem downloadResource_fallback_semantics :
    (∀ (g : String → HTTPOutcome) (url : String),
      downloadResource g url = none ↔
        ((∃ m, g url = .transportErr m) ∨ (∃ st m, g url = .response st (.error m)))) ∧
    (∀ (g : String → HTTPOutcome) (url : String) (st : Nat) (b : String),
      g url = .response st (.ok b) → downloadResource g url = some b) ∧
    (∀ (g : String → HTTPOutcome) (store : List (String × Resource))
        (res : Resource) (e : String),
      (capFinish g store res (.error e)).2.Content = downloadResource g res.URL ∧
      goMapLookup (capFinish g store res (.error e)).1 res.URL
        = some (capFinish g store res (.error e)).2) ∧
    (∀ (g : String → HTTPOutcome) (store : List (String × Resource))
        (res : Resource) (b : String),
      (capFinish g store res (.ok b)).2.Content = some b ∧
      goMapLookup (capFinish g store res (.ok b)).1 res.URL
        = some (capFinish g store res (.ok b)).2) := by
  refine ⟨?_, ?_, ?_, ?_⟩
  · intro g url
    cases hg : g url with
    | transportErr m => simp [downloadResource, hg]
    | response st body =>
      cases body with
      | error m => simp [downloadResource, hg]
      | ok b => simp [downloadResource, hg]
  · intro g url st b hg
    simp [downloadResource, hg]
  · intro g store res e
    exact ⟨rfl, goMapLookup_mapInsert_self _ _ _⟩
  · intro g store res b
    exact ⟨rfl, goMapLookup_mapInsert_self _ _ _⟩

/-- C8 (witness): a 404 response with a readable body is not an error for
the fallback fetcher — the body is returned. -/
theorem downloadResource_fallback_semantics_witness :
    downloadResource (fun _ => .response 404 (.ok "BODY")) "https://example.com/x"
      = some "BODY" :=
  downloadResource_fallback_semantics.2.1 _ _ 404 "BODY" rfl

/-- C9: `GetResources` returns an independent copy: the snapshot lives at
a fresh heap address holding a copy of the spider's map, so a later
`s.resources[url] = r` (which writes through the spider's address) leaves
the snapshot unchanged. -/
theorem getResources_snapshot_independent (s : SpiderSt) (url : String) (r : Resource)
    (h : s.addr < s.heap.length) :
    readHeap (spiderPut (getResources s).2 url r) (getResources s).1
      = readHeap (getResources s).2 (getResources s).1 ∧
    readHeap (getResources s).2 (getResources s).1 = copyMap (readHeap s s.addr) := by
  have hne : s.addr ≠ s.heap.length := Nat.ne_of_lt h
  constructor
  · exact listGetDSetNe _ _ _ _ _ hne
  · exact listGetDAppendLen _ _ _

/-- C9 (witness): the snapshot of a one-entry store survives a subsequent
insertion unchanged. -/
theorem getResources_snapshot_independent_witness :
    readHeap (spiderPut (getResources { heap := [[("u", { URL := "u" })]], addr := 0 }).2
        "v" { URL := "v" }) (getResources { heap := [[("u", { URL := "u" })]], addr := 0 }).1
      = readHeap (getResources { heap := [[("u", { URL := "u" })]], addr := 0 }).2
          (getResources { heap := [[("u", { URL := "u" })]], addr := 0 }).1 :=
  (getResources_snapshot_independent _ "v" _ (by decide)).1

theorem extractLoop_eq (u : GoURL) (sm : SourceMap) :
    ∀ (l : List String) (i : Nat),
    extractLoop u sm i l = (List.range l.length).filterMap (fun j =>
      if i + j < sm.sourcesContent.length ∧ sm.sourcesContent.getD (i + j) "" ≠ "" then
        some { URL := buildSourceURL u (cleanSourcePath (l.getD j "") sm.sourceRoot),
               StatusCode := 200,
               MimeType := guessMimeType (cleanSourcePath (l.getD j "") sm.sourceRoot),
               Content := some (sm.sourcesContent.getD (i + j) ""),
               Headers := [("X-Source", "SourceMap")] }
      else none) := by
  intro l
  induction l with
  | nil => intro i; simp [extractLoop]
  | cons s rest ih =>
    intro i
    rw [List.length_cons, List.range_succ_eq_map, List.filterMap_cons, List.filterMap_map]
    by_cases hskip : sm.sourcesContent.length ≤ i ∨ sm.sourcesContent.getD i "" = ""
    · have hneg : ¬ (i + 0 < sm.sourcesContent.length ∧
          sm.sourcesContent.getD (i + 0) "" ≠ "") := by
        rcases hskip with h | h
        · intro hc; exact absurd hc.1 (by simpa using Nat.not_lt.mpr h)
        · intro hc; exact hc.2 (by simpa using h)
      rw [show extractLoop u sm i (s :: rest) = extractLoop u sm (i + 1) rest from by
        simp only [extractLoop, if_pos hskip]]
      rw [if_neg hneg]
      rw [ih (i + 1)]
      apply List.filterMap_congr
      intro j _
      simp only [Function.comp_apply, List.getD_cons_succ, Nat.add_succ, Nat.succ_add]
    · have hpos : i + 0 < sm.sourcesContent.length ∧
          sm.sourcesContent.getD (i + 0) "" ≠ "" := by
        push_neg at hskip
        exact ⟨by simpa using hskip.1, by simpa using hskip.2⟩
      rw [show extractLoop u sm i (s :: rest)
          = { URL := buildSourceURL u (cleanSourcePath s sm.sourceRoot),
              StatusCode := 200,
              MimeType := guessMimeType (cleanSourcePath s sm.sourceRoot),
              Content := some (sm.sourcesContent.getD i ""),
              Headers := [("X-Source", "SourceMap")] } :: extractLoop u sm (i + 1) rest from by
        simp only [extractLoop, if_neg hskip]]
      rw [if_pos hpos]
      rw [ih (i + 1)]
      congr 1
      apply List.filterMap_congr
      intro j _
      simp only [Function.comp_apply, List.getD_cons_succ, Nat.add_succ, Nat.succ_add]

/-- C3: for every parsed map document and parsed map URL,
`extractSourceFiles` equals the spec-side materialization: entry `i` of
`Sources` yields a `Resource` iff `i < len(SourcesContent)` and
`SourcesContent[i]` is non-empty; each resource is rehomed under the map
URL's scheme and host, has status 200, content `SourcesContent[i]` and
the source-map marker header; the output follows `Sources` order. -/
theorem extractSourceFiles_materialization_spec (sm : SourceMap) (url : String) (u : GoURL)
    (hparse : goURLParse url = some u) :
    extractSourceFiles sm url = specMaterialize sm u := by
  unfold extractSourceFiles
  rw [hparse]
  show extractLoop u sm 0 sm.sources = specMaterialize sm u
  rw [extractLoop_eq u sm sm.sources 0]
  unfold specMaterialize
  apply List.filterMap_congr
  intro j _
  simp [buildSourceURL, Nat.zero_add]

/-- C3 (witness): three sources with one `sourcesContent` entry give
exactly one synthesized resource, matching the spec-side form. -/
theorem extractSourceFiles_materialization_witness :
    extractSourceFiles
        { sources := ["src/a.js", "src/b.js", "src/c.js"], sourcesContent := ["content-a"] }
        "https://example.com/app.js.map"
      = specMaterialize
          { sources := ["src/a.js", "src/b.js", "src/c.js"], sourcesContent := ["content-a"] }
          { scheme := "https", host := "example.com", path := "/app.js.map" } ∧
    (extractSourceFiles
        { sources := ["src/a.js", "src/b.js", "src/c.js"], sourcesContent := ["content-a"] }
        "https://example.com/app.js.map").length = 1 :=
  ⟨extractSourceFiles_materialization_spec _ _ _ (by decide), by decide⟩

theorem capStep_preserves (tasks : List CapTask) (s : CapState) (j : Nat)
    (h1 : (s.store.map Prod.fst).Nodup) (h2 : s.fetchLog.Nodup)
    (h3 : ∀ i ∈ s.fetchLog,
      s.phases.get? i ≠ some .check ∧ s.phases.get? i ≠ some .fetch) :
    ((capStep tasks s j).store.map Prod.fst).Nodup ∧
    (capStep tasks s j).fetchLog.Nodup ∧
    ∀ i ∈ (capStep tasks s j).fetchLog,
      (capStep tasks s j).phases.get? i ≠ some .check ∧
      (capStep tasks s j).phases.get? i ≠ some .fetch := by
  cases hph : s.phases.get? j with
  | none => simp only [capStep, hph]; exact ⟨h1, h2, h3⟩
  | some ph =>
    cases htk : tasks.get? j with
    | none => simp only [capStep, hph, htk]; exact ⟨h1, h2, h3⟩
    | some t =>
      have hjlen : j < s.phases.length := by
        rcases List.get?_eq_some.mp hph with ⟨h, _⟩
        exact h
      cases ph with
      | check =>
        simp only [capStep, hph, htk]
        by_cases hmem : (goMapLookup s.store t.url).isSome = true
        · rw [if_pos hmem]
          refine ⟨h1, h2, fun i hi => ?_⟩
          by_cases hij : i = j
          · subst hij
            rw [listGet?SetSelf _ _ _ hjlen]
            exact ⟨by decide, by decide⟩
          · rw [listGet?SetNe _ _ _ _ (fun hc => hij hc.symm)]
            exact h3 i hi
        · rw [if_neg hmem]
          refine ⟨h1, h2, fun i hi => ?_⟩
          by_cases hij : i = j
          · subst hij
            exact absurd hph (h3 i hi).1
          · rw [listGet?SetNe _ _ _ _ (fun hc => hij hc.symm)]
            exact h3 i hi
      | fetch =>
        simp only [capStep, hph, htk]
        have hjnot : j ∉ s.fetchLog := fun hc => (h3 j hc).2 hph
        refine ⟨h1, ?_, fun i hi => ?_⟩
        · rw [List.nodup_append]
          refine ⟨h2, List.nodup_singleton j, ?_⟩
          intro a ha hb
          rw [List.mem_singleton] at hb
          subst hb
          exact hjnot ha
        · rcases List.mem_append.mp hi with hi' | hi'
          · by_cases hij : i = j
            · subst hij
              exact absurd hph (h3 i hi').2
            · rw [listGet?SetNe _ _ _ _ (fun hc => hij hc.symm)]
              exact h3 i hi'
          · rw [List.mem_singleton] at hi'
            subst hi'
            rw [listGet?SetSelf _ _ _ hjlen]
            exact ⟨by decide, by decide⟩
      | store =>
        simp only [capStep, hph, htk]
        refine ⟨mapInsert_keys_nodup _ _ _ h1, h2, fun i hi => ?_⟩
        by_cases hij : i = j
        · subst hij
          rw [listGet?SetSelf _ _ _ hjlen]
          exact ⟨by decide, by decide⟩
        · rw [listGet?SetNe _ _ _ _ (fun hc => hij hc.symm)]
          exact h3 i hi
      | finished =>
        simp only [capStep, hph, htk]
        exact ⟨h1, h2, h3⟩

theorem capRun_foldl_inv (tasks : List CapTask) :
    ∀ (sched : List Nat) (s : CapState),
    (s.store.map Prod.fst).Nodup → s.fetchLog.Nodup →
    (∀ i ∈ s.fetchLog,
      s.phases.get? i ≠ some .check ∧ s.phases.get? i ≠ some .fetch) →
    ((sched.foldl (capStep tasks) s).store.map Prod.fst).Nodup ∧
    (sched.foldl (capStep tasks) s).fetchLog.Nodup := by
  intro sched
  induction sched with
  | nil => intro s g1 g2 _; exact ⟨g1, g2⟩
  | cons a rest ih =>
    intro s g1 g2 g3
    rcases capStep_preserves tasks s a g1 g2 g3 with ⟨k1, k2, k3⟩
    exact ih (capStep tasks s a) k1 k2 k3

/-- C1 (amended): for every set of response-received events and every
interleaving of their atomic steps, the final store holds at most one
`Resource` per URL (the map assignment overwrites by key), and each event
performs at most one body-retrieval attempt; but because the existence
check and the map assignment are separate mutex regions (check-then-act),
two concurrent events for the same URL can both pass the check and both
retrieve the body — body retrieval is not exactly-once per URL under
concurrent delivery (see the counterexample). -/
theorem handleResponse_store_unique_per_url (tasks : List CapTask) (sched : List Nat) :
    ((capRun tasks sched).store.map Prod.fst).Nodup ∧
    (capRun tasks sched).fetchLog.Nodup := by
  apply capRun_foldl_inv tasks sched (capInit tasks)
  · simp [capInit]
  · simp [capInit]
  · intro i hi
    simp [capInit] at hi
